import Mathlib

/-!
Verification of the differential-testing harness in `src/bin/run-tests.rs`
against its natural-language specification.

The Rust program is shallowly embedded: pure fragments become Lean
functions, the stateful worker loop becomes explicit state passing, and
external effects (subprocess execution, the terminal, the filesystem)
become explicit inputs (oracles) to the embedded functions.  Machine
integers that matter are modelled as `Nat`; the one floating-point
computation (the ETA in `render_summary`) is modelled by an exact-value
IEEE-754-style type with explicit `inf`/`nan` elements, since the
properties at stake (totality, saturating casts) do not depend on
rounding of finite values.
-/

/-- `RunResult` from run-tests.rs: the outcome of one (target, variant)
execution — either the process finished (with its exit-success flag) or it
hit the 120 s timeout. -/
inductive RunResult where
  | Finished (passed : Bool)
  | TimedOut
deriving DecidableEq

/-- `RunResults` from run-tests.rs: the per-target result set, with a
3-field shape (`V1`) for elm-explorations/test major version 1 and a
5-field shape (`V2`) otherwise.  Field order follows the Rust struct
variants: elm (reference), lamdera stable no-wire, lamdera stable,
lamdera next no-wire, lamdera next. -/
inductive RunResults where
  | V1 (elm_result lamdera_stable_no_wire_result lamdera_stable_result : RunResult)
  | V2 (elm_result lamdera_stable_no_wire_result lamdera_stable_result
        lamdera_next_no_wire_result lamdera_next_result : RunResult)
deriving DecidableEq

/-- `ElmTestVersion` from run-tests.rs. -/
inductive ElmTestVersion where
  | V1
  | V2
deriving DecidableEq

/-- The `Display` impl for `ElmTestVersion` ("1" / "2"). -/
def elm_test_version_display : ElmTestVersion → String
  | .V1 => "1"
  | .V2 => "2"

/-- The shape (detected framework version) of a result set. -/
def results_shape : RunResults → ElmTestVersion
  | .V1 _ _ _ => .V1
  | .V2 _ _ _ _ _ => .V2

/-- `Done` from run-tests.rs: one completed entry.  `path` is the target
path rendered as a string, `time` the elapsed seconds. -/
structure Done where
  path : String
  time : Nat
  results : RunResults
deriving DecidableEq

/-- The sort key used by `view` (run-tests.rs lines 390-452) for the
completed ("Done") table.  The Rust `match` arms are tried top to bottom;
for each constructor the guards below appear in the same relative order
as in the source, so this function computes exactly the same key. -/
def sort_key : RunResults → Nat
  | .V2 elm_result lamdera_stable_no_wire_result lamdera_stable_result
      lamdera_next_no_wire_result lamdera_next_result =>
    if elm_result ≠ lamdera_stable_no_wire_result then 0
    else if elm_result ≠ lamdera_next_no_wire_result then 1
    else if lamdera_stable_no_wire_result ≠ lamdera_stable_result then 3
    else if lamdera_next_no_wire_result ≠ lamdera_next_result then 4
    else match elm_result with
      | .TimedOut => 6
      | .Finished false => 8
      | .Finished true => 10
  | .V1 elm_result lamdera_stable_no_wire_result lamdera_stable_result =>
    if elm_result ≠ lamdera_stable_no_wire_result then 2
    else if lamdera_stable_no_wire_result ≠ lamdera_stable_result then 5
    else match elm_result with
      | .TimedOut => 7
      | .Finished false => 9
      | .Finished true => 11

/-- Comparison relation on completed entries induced by `sort_key`. -/
def done_key_le (a b : Done) : Prop :=
  sort_key a.results ≤ sort_key b.results

instance : DecidableRel done_key_le :=
  fun a b => Nat.decLe (sort_key a.results) (sort_key b.results)

instance : IsTotal Done done_key_le :=
  ⟨fun a b => Nat.le_total (sort_key a.results) (sort_key b.results)⟩

instance : IsTrans Done done_key_le :=
  ⟨fun _ _ _ => Nat.le_trans⟩

/-- The completed list as the `view` function displays it: a copy of the
store is reversed and then stably sorted by `sort_key`
(`done_list.reverse(); done_list.sort_by_key(...)`).  Rust's
`sort_by_key` is a stable sort; for a total preorder the stable sort of
a list is unique, so the (stable) insertion sort is extensionally the
same function. -/
def view_done_list (dones : List Done) : List Done :=
  List.insertionSort done_key_le dones.reverse

/-- The spec's priority classes (a)-(g) as numbers 0-6, following the
spec's words in §4.4: (a) reference-vs-first-variant mismatch,
(b) reference-vs-last-no-wire-variant mismatch [5-variant set only],
(c) stable no-wire vs stable mismatch, (d) next no-wire vs next mismatch
[5-variant set only], (e) reference timed out, (f) reference finished
failing, (g) reference finished passing; classification is by the first
matching class.  For the ambiguous phrase "last variant" we adopt the
reading matching the code's comparison (reference vs. next-no-wire),
which is the reading most favourable to the claim under test. -/
def spec_priority_class : RunResults → Nat
  | .V1 elm_result lamdera_stable_no_wire_result lamdera_stable_result =>
    if elm_result ≠ lamdera_stable_no_wire_result then 0
    else if lamdera_stable_no_wire_result ≠ lamdera_stable_result then 2
    else match elm_result with
      | .TimedOut => 4
      | .Finished false => 5
      | .Finished true => 6
  | .V2 elm_result lamdera_stable_no_wire_result lamdera_stable_result
      lamdera_next_no_wire_result lamdera_next_result =>
    if elm_result ≠ lamdera_stable_no_wire_result then 0
    else if elm_result ≠ lamdera_next_no_wire_result then 1
    else if lamdera_stable_no_wire_result ≠ lamdera_stable_result then 2
    else if lamdera_next_no_wire_result ≠ lamdera_next_result then 3
    else match elm_result with
      | .TimedOut => 4
      | .Finished false => 5
      | .Finished true => 6

/-- A 3-variant entry in spec class (a): the reference result differs
from the first variant's. -/
def done_v1_class_a : Done :=
  { path := "author/pkg-a/1.0.0"
    time := 3
    results := .V1 (.Finished true) (.Finished false) (.Finished false) }

/-- A 5-variant entry in spec class (b): reference agrees with the first
variant but differs from the next-no-wire (and next) variant. -/
def done_v2_class_b : Done :=
  { path := "author/pkg-b/1.0.0"
    time := 4
    results := .V2 (.Finished true) (.Finished true) (.Finished true)
      (.Finished false) (.Finished false) }

/-- C1 (counterexample): on a completed list holding one 3-variant
class-(a) entry and one 5-variant class-(b) entry, the rendered table is
NOT ordered by the spec's priority classes: the code assigns key 2 to the
3-variant class-(a) entry and key 1 to the 5-variant class-(b) entry, so
the class-(b) entry is shown first. -/
theorem c1_counterexample :
    ¬ (view_done_list [done_v1_class_a, done_v2_class_b]).Pairwise
        (fun a b => spec_priority_class a.results ≤ spec_priority_class b.results) := by
  decide

/-- C1 (amended): the completed table is ordered by the code's 12-way
sort key, which refines the spec's classes within each result shape but
interleaves the two shapes (all 5-variant mismatch classes sort before
the 3-variant reference-vs-first-variant class, and so on): for every
completed list the rendered table is sorted by `sort_key`, and within a
fixed shape the spec's class order is respected by the key. -/
theorem c1_done_table_code_priority_order (dones : List Done) :
    (view_done_list dones).Pairwise
      (fun a b => sort_key a.results ≤ sort_key b.results) :=
  List.sorted_insertionSort done_key_le dones.reverse

/-- The `Display` impl for `RunResult` (the glyphs written to the CSV
export and the dashboard). -/
def result_glyph : RunResult → String
  | .Finished true => "✅"
  | .Finished false => "❌"
  | .TimedOut => "⏰"

/-- The per-entry body of the `export` loop (run-tests.rs lines 298-333):
`none` models the `continue` arm (row skipped), `some row` the record
written for the entry.  Arms appear in source order; note that the
skip arm only matches the `V1` shape, and that the `V2` arm writes the
literal string "1" in the version column, exactly as the source does. -/
def export_row (done : Done) : Option (List String) :=
  match done.results with
  | .V1 (.Finished true) (.Finished true) (.Finished true) => none
  | .V1 elm_result lamdera_stable_no_wire_result lamdera_stable_result =>
    some [done.path, "1", result_glyph elm_result,
      result_glyph lamdera_stable_no_wire_result,
      result_glyph lamdera_stable_result, "", ""]
  | .V2 elm_result lamdera_stable_no_wire_result lamdera_stable_result
      lamdera_next_no_wire_result lamdera_next_result =>
    some [done.path, "1", result_glyph elm_result,
      result_glyph lamdera_stable_no_wire_result,
      result_glyph lamdera_stable_result,
      result_glyph lamdera_next_no_wire_result,
      result_glyph lamdera_next_result]

/-- The rows the CSV export writes (header aside), in storage order. -/
def export_rows (dones : List Done) : List (List String) :=
  dones.filterMap export_row

/-- Claim-side predicate (from the spec's words): every variant outcome
in the result set is `Finished(true)`. -/
def unanimous_pass : RunResults → Bool
  | .V1 elm_result lamdera_stable_no_wire_result lamdera_stable_result =>
    decide (elm_result = .Finished true ∧
      lamdera_stable_no_wire_result = .Finished true ∧
      lamdera_stable_result = .Finished true)
  | .V2 elm_result lamdera_stable_no_wire_result lamdera_stable_result
      lamdera_next_no_wire_result lamdera_next_result =>
    decide (elm_result = .Finished true ∧
      lamdera_stable_no_wire_result = .Finished true ∧
      lamdera_stable_result = .Finished true ∧
      lamdera_next_no_wire_result = .Finished true ∧
      lamdera_next_result = .Finished true)

/-- A 5-variant completed entry whose five outcomes are all
`Finished(true)`. -/
def done_v2_all_pass : Done :=
  { path := "author/pkg-c/1.0.0"
    time := 5
    results := .V2 (.Finished true) (.Finished true) (.Finished true)
      (.Finished true) (.Finished true) }

/-- C2 (counterexample): a 5-variant entry with all five outcomes
`Finished(true)` is a unanimous pass, yet the export does NOT omit its
row — the skip arm of the export match only covers the 3-variant shape. -/
theorem c2_counterexample :
    ¬ (export_row done_v2_all_pass = none ↔
        unanimous_pass done_v2_all_pass.results = true) := by
  decide

/-- C2 (amended): the CSV export omits an entry's row if and only if the
entry has the 3-variant result shape with all three outcomes
`Finished(true)`; 5-variant entries are always written, even on a
unanimous pass. -/
theorem c2_export_skips_only_v1_unanimous (done : Done) :
    export_row done = none ↔
      done.results = .V1 (.Finished true) (.Finished true) (.Finished true) := by
  rcases done with ⟨p, t, r⟩
  rcases r with ⟨e, snw, s⟩ | ⟨e, snw, s, nnw, n⟩
  · rcases e with ⟨_ | _⟩ | _ <;> rcases snw with ⟨_ | _⟩ | _ <;>
      rcases s with ⟨_ | _⟩ | _ <;> simp [export_row]
  · simp [export_row]

/-- The 5-variant completed entry of the spec's first scenario: the
reference fails, all four fork variants pass. -/
def done_v2_reference_fails : Done :=
  { path := "pub/pkg/1.0.0"
    time := 7
    results := .V2 (.Finished false) (.Finished true) (.Finished true)
      (.Finished true) (.Finished true) }

/-- C3 (code evaluated at the failing input): for a completed 5-variant
entry the export writes the literal "1" in the framework-version column,
while the entry's detected framework version renders as "2" (the
program's own `Display` impl for `ElmTestVersion`, used by the
dashboard): the written row contradicts the claimed column value. -/
theorem c3_export_version_column_eval :
    export_row done_v2_reference_fails =
      some ["pub/pkg/1.0.0", "1", "❌", "✅", "✅", "✅", "✅"]
    ∧ elm_test_version_display (results_shape done_v2_reference_fails.results) = "2" := by
  constructor <;> rfl

/-- One spawned test-runner process, abstracted by its observable
behaviour: `some (t, ok)` means the process exits after `t` seconds with
exit-success flag `ok`; `none` means it never exits on its own. -/
structure ChildProcess where
  behavior : Option (Nat × Bool)

/-- The fixed per-run timeout (run-tests.rs line 603): 120 seconds. -/
def run_timeout_secs : Nat := 120

/-- `Child::wait_timeout(timeout)`: `some status` iff the process exits
within the timeout, `none` otherwise. -/
def wait_timeout (child : ChildProcess) (timeout_secs : Nat) : Option Bool :=
  match child.behavior with
  | some (t, ok) => if t ≤ timeout_secs then some ok else none
  | none => none

/-- Observable process-management actions taken by the runner after the
wait: `killed` models `elm_child.kill()`, `reaped` models the blocking
`wait` that collects the exit status (`wait_timeout` itself reaps in the
in-time branch). -/
inductive ProcEvent where
  | killed
  | reaped
deriving DecidableEq

/-- The tail of `run_tests_with` (run-tests.rs lines 631-638): wait with
the fixed timeout; on exit record `Finished(exit success)`, otherwise
kill the process, wait for it to terminate, and record `TimedOut`. -/
def finish_run (child : ChildProcess) : RunResult × List ProcEvent :=
  match wait_timeout child run_timeout_secs with
  | some status => (RunResult.Finished status, [ProcEvent.reaped])
  | none => (RunResult.TimedOut, [ProcEvent.killed, ProcEvent.reaped])

/-- C4: if the spawned process exits within the 120 s timeout the
recorded outcome is `Finished` of its exit-success status (and the
process is reaped); if it exits too late or never, it is killed and then
reaped and the outcome is `TimedOut`; in every case the last
process-management action is the reap, so no process is left running. -/
theorem c4_run_timeout_outcomes (child : ChildProcess) :
    (∀ t ok, child.behavior = some (t, ok) → t ≤ run_timeout_secs →
      finish_run child = (RunResult.Finished ok, [ProcEvent.reaped]))
    ∧ (∀ t ok, child.behavior = some (t, ok) → run_timeout_secs < t →
      finish_run child = (RunResult.TimedOut, [ProcEvent.killed, ProcEvent.reaped]))
    ∧ (child.behavior = none →
      finish_run child = (RunResult.TimedOut, [ProcEvent.killed, ProcEvent.reaped]))
    ∧ (finish_run child).2.getLast? = some ProcEvent.reaped := by
  refine ⟨?_, ?_, ?_, ?_⟩
  · intro t ok hb ht
    simp [finish_run, wait_timeout, hb, ht]
  · intro t ok hb ht
    simp [finish_run, wait_timeout, hb, Nat.not_le.mpr ht]
  · intro hb
    simp [finish_run, wait_timeout, hb]
  · rcases hb : child.behavior with _ | ⟨t, ok⟩
    · simp [finish_run, wait_timeout, hb]
    · by_cases ht : t ≤ run_timeout_secs <;> simp [finish_run, wait_timeout, hb, ht]

/-- C4 witness: the three behaviours at concrete processes — an in-time
exit with failure status, a late exit, and a hang. -/
theorem c4_run_timeout_outcomes_witness :
    finish_run ⟨some (30, false)⟩ = (RunResult.Finished false, [ProcEvent.reaped])
    ∧ finish_run ⟨some (200, true)⟩ =
        (RunResult.TimedOut, [ProcEvent.killed, ProcEvent.reaped])
    ∧ finish_run ⟨none⟩ = (RunResult.TimedOut, [ProcEvent.killed, ProcEvent.reaped]) :=
  ⟨(c4_run_timeout_outcomes ⟨some (30, false)⟩).1 30 false rfl (by decide),
   (c4_run_timeout_outcomes ⟨some (200, true)⟩).2.1 200 true rfl (by decide),
   (c4_run_timeout_outcomes ⟨none⟩).2.2.1 rfl⟩

/-- `pat` occurs at the head of the list. -/
def matches_at_head {α} [DecidableEq α] : List α → List α → Bool
  | [], _ => true
  | _ :: _, [] => false
  | p :: ps, x :: xs => decide (p = x) && matches_at_head ps xs

/-- `pat` occurs as a contiguous run somewhere in the list. -/
def has_substring {α} [DecidableEq α] (pat : List α) : List α → Bool
  | [] => pat.isEmpty
  | x :: xs => matches_at_head pat (x :: xs) || has_substring pat xs

/-- Rust's `str::contains` for a string pattern: substring containment. -/
def str_contains (s pat : String) : Bool :=
  has_substring pat.toList s.toList

/-- The dependency-version marker substring checked by `check_tests_for`
(run-tests.rs line 591). -/
def elm_test_v1_marker : String := "\"elm-explorations/test\": \"1"

/-- The framework-version detection of `check_tests_for` (run-tests.rs
lines 590-595): version 1 iff the manifest text contains the marker. -/
def detect_elm_test_version (elm_json_content : String) : ElmTestVersion :=
  if str_contains elm_json_content elm_test_v1_marker then .V1 else .V2

/-- `Compilers` from run-tests.rs: the configured variant binaries. -/
structure Compilers where
  elm : String
  lamdera_stable_no_wire : String
  lamdera_stable : String
  lamdera_next_no_wire : String
  lamdera_next : String

/-- One invocation of the `run_tests_with` closure, abstracted over the
external process behaviour: `run` is the oracle giving each compiler
binary's run outcome (or a spawn/I/O error, which `?` propagates), and
the invoked compiler is appended to the invocation log. -/
def run_tests_with {ε} (run : String → Except ε RunResult) (compiler : String)
    (invocations : List String) : Except ε RunResult × List String :=
  (run compiler, invocations ++ [compiler])

/-- `check_tests_for` (run-tests.rs lines 586-676), with the manifest
text and the per-compiler run oracle as inputs: detect the framework
version, then run the fixed 3- or 5-variant sequence in source order,
propagating the first error, and collect the outcomes into the matching
`RunResults` shape. -/
def check_tests_for {ε} (compilers : Compilers) (elm_json_content : String)
    (run : String → Except ε RunResult) : Except ε RunResults × List String :=
  match detect_elm_test_version elm_json_content with
  | .V1 =>
    match run_tests_with run compilers.elm [] with
    | (.error e, log) => (.error e, log)
    | (.ok elm_result, log1) =>
    match run_tests_with run compilers.lamdera_stable_no_wire log1 with
    | (.error e, log) => (.error e, log)
    | (.ok lamdera_stable_no_wire_result, log2) =>
    match run_tests_with run compilers.lamdera_stable log2 with
    | (.error e, log) => (.error e, log)
    | (.ok lamdera_stable_result, log3) =>
      (.ok (.V1 elm_result lamdera_stable_no_wire_result lamdera_stable_result), log3)
  | .V2 =>
    match run_tests_with run compilers.elm [] with
    | (.error e, log) => (.error e, log)
    | (.ok elm_result, log1) =>
    match run_tests_with run compilers.lamdera_stable_no_wire log1 with
    | (.error e, log) => (.error e, log)
    | (.ok lamdera_stable_no_wire_result, log2) =>
    match run_tests_with run compilers.lamdera_stable log2 with
    | (.error e, log) => (.error e, log)
    | (.ok lamdera_stable_result, log3) =>
    match run_tests_with run compilers.lamdera_next_no_wire log3 with
    | (.error e, log) => (.error e, log)
    | (.ok lamdera_next_no_wire_result, log4) =>
    match run_tests_with run compilers.lamdera_next log4 with
    | (.error e, log) => (.error e, log)
    | (.ok lamdera_next_result, log5) =>
      (.ok (.V2 elm_result lamdera_stable_no_wire_result lamdera_stable_result
        lamdera_next_no_wire_result lamdera_next_result), log5)

/-- C5: whenever the differential runner returns a result set, its shape
is the 3-field one iff the manifest text contains the version-1 marker
substring, and the invocation log is the full fixed variant sequence (3
or 5 compilers, in source order) — independent of the individual
outcomes, so there is no early exit on divergence. -/
theorem c5_variant_set_selection_and_order {ε} (compilers : Compilers)
    (elm_json_content : String) (run : String → Except ε RunResult)
    (r : RunResults) (invocations : List String)
    (h : check_tests_for compilers elm_json_content run = (.ok r, invocations)) :
    (results_shape r = .V1 ↔ str_contains elm_json_content elm_test_v1_marker = true)
    ∧ invocations =
        (if str_contains elm_json_content elm_test_v1_marker then
          [compilers.elm, compilers.lamdera_stable_no_wire, compilers.lamdera_stable]
        else
          [compilers.elm, compilers.lamdera_stable_no_wire, compilers.lamdera_stable,
           compilers.lamdera_next_no_wire, compilers.lamdera_next]) := by
  by_cases hc : str_contains elm_json_content elm_test_v1_marker = true
  · simp only [check_tests_for, detect_elm_test_version, hc, if_true, run_tests_with] at h
    rcases h1 : run compilers.elm with e | r1 <;> simp only [h1] at h
    · simp at h
    rcases h2 : run compilers.lamdera_stable_no_wire with e | r2 <;> simp only [h2] at h
    · simp at h
    rcases h3 : run compilers.lamdera_stable with e | r3 <;> simp only [h3] at h
    · simp at h
    rw [Prod.mk.injEq] at h
    obtain ⟨hr, hinv⟩ := h
    injection hr with hr
    subst hr
    subst hinv
    simp [results_shape, hc]
  · rw [Bool.not_eq_true] at hc
    simp only [check_tests_for, detect_elm_test_version, hc, Bool.false_eq_true,
      if_false, run_tests_with] at h
    rcases h1 : run compilers.elm with e | r1 <;> simp only [h1] at h
    · simp at h
    rcases h2 : run compilers.lamdera_stable_no_wire with e | r2 <;> simp only [h2] at h
    · simp at h
    rcases h3 : run compilers.lamdera_stable with e | r3 <;> simp only [h3] at h
    · simp at h
    rcases h4 : run compilers.lamdera_next_no_wire with e | r4 <;> simp only [h4] at h
    · simp at h
    rcases h5 : run compilers.lamdera_next with e | r5 <;> simp only [h5] at h
    · simp at h
    rw [Prod.mk.injEq] at h
    obtain ⟨hr, hinv⟩ := h
    injection hr with hr
    subst hr
    subst hinv
    simp [results_shape, hc]

/-- A concrete compiler configuration (the defaults from run-tests.rs). -/
def compilers_demo : Compilers :=
  { elm := "elm"
    lamdera_stable_no_wire := "lamdera-stable-no-wire"
    lamdera_stable := "lamdera-stable"
    lamdera_next_no_wire := "lamdera-next-no-wire"
    lamdera_next := "lamdera-next" }

/-- A manifest text containing the version-1 marker. -/
def elm_json_v1_demo : String := "\"elm-explorations/test\": \"1.2.2\""

/-- C5 witness: with the version-1 manifest and an oracle where every
run passes, the runner returns the 3-field shape and invokes exactly the
three configured variants in order. -/
theorem c5_variant_set_selection_and_order_witness :
    (results_shape (.V1 (.Finished true) (.Finished true) (.Finished true)) = .V1 ↔
      str_contains elm_json_v1_demo elm_test_v1_marker = true)
    ∧ ["elm", "lamdera-stable-no-wire", "lamdera-stable"] =
        (if str_contains elm_json_v1_demo elm_test_v1_marker then
          [compilers_demo.elm, compilers_demo.lamdera_stable_no_wire,
            compilers_demo.lamdera_stable]
        else
          [compilers_demo.elm, compilers_demo.lamdera_stable_no_wire,
            compilers_demo.lamdera_stable, compilers_demo.lamdera_next_no_wire,
            compilers_demo.lamdera_next]) :=
  c5_variant_set_selection_and_order compilers_demo elm_json_v1_demo
    (fun _ => (Except.ok (RunResult.Finished true) : Except Unit RunResult))
    (.V1 (.Finished true) (.Finished true) (.Finished true))
    ["elm", "lamdera-stable-no-wire", "lamdera-stable"] rfl

/-- The worker-visible shared state: the in-progress map (target path →
start instant, a `HashMap` modelled as an association list whose `insert`
replaces the key) and the completed list. -/
structure EngineState where
  in_progress : List (String × Nat)
  dones : List Done
deriving DecidableEq

/-- `HashMap::insert`: any existing binding for the key is replaced. -/
def ip_insert (target : String) (start : Nat)
    (m : List (String × Nat)) : List (String × Nat) :=
  (target, start) :: m.filter (fun e => e.1 != target)

/-- `HashMap::remove`. -/
def ip_remove (target : String) (m : List (String × Nat)) : List (String × Nat) :=
  m.filter (fun e => e.1 != target)

/-- One iteration of a worker (run-tests.rs lines 161-191) after a target
has been received: insert the in-progress entry with the start instant,
dispatch the runner (whose outcome `run_result` is an input here), remove
the in-progress entry, then apply `?` to the runner's result, appending a
completed entry only in the success case.  The returned `Option ε` is the
error the iteration propagates, if any. -/
def worker_iteration {ε} (st : EngineState) (target : String) (start : Nat)
    (run_result : Except ε RunResults) (elapsed : Nat) : EngineState × Option ε :=
  let st_dispatched : EngineState :=
    { st with in_progress := ip_insert target start st.in_progress }
  let st_after : EngineState :=
    { st_dispatched with in_progress := ip_remove target st_dispatched.in_progress }
  match run_result with
  | .error e => (st_after, some e)
  | .ok results =>
    ({ st_after with
        dones := st_after.dones ++ [⟨target, elapsed, results⟩] }, none)

/-- C7: for a worker iteration on a target not already in progress, the
dispatched state does hold the target with its start instant, and the
final in-progress map equals the initial one both when the runner returns
a result set and when it errors; the completed list is extended by
exactly the target's entry in the success case and left unchanged in the
error case, so no partial or error-case result set is published. -/
theorem c7_worker_iteration_state {ε} (st : EngineState) (target : String)
    (start : Nat) (run_result : Except ε RunResults) (elapsed : Nat)
    (h : ∀ e ∈ st.in_progress, e.1 ≠ target) :
    List.lookup target (ip_insert target start st.in_progress) = some start
    ∧ worker_iteration st target start run_result elapsed =
        match run_result with
        | .ok results =>
          ({ in_progress := st.in_progress
             dones := st.dones ++ [⟨target, elapsed, results⟩] }, none)
        | .error e => ({ in_progress := st.in_progress, dones := st.dones }, some e) := by
  have hfilter : st.in_progress.filter (fun e => e.1 != target) = st.in_progress := by
    rw [List.filter_eq_self]
    intro a ha
    simpa using h a ha
  constructor
  · simp [ip_insert, List.lookup]
  · cases run_result <;>
      simp [worker_iteration, ip_insert, ip_remove, List.filter, hfilter]

/-- C7 witness: a concrete iteration over a one-entry in-progress map,
instantiated with a successful 3-variant run. -/
theorem c7_worker_iteration_state_witness :
    List.lookup "a/b/1.0.0"
        (ip_insert "a/b/1.0.0" 17 [("other/pkg/2.0.0", 5)]) = some 17
    ∧ worker_iteration ⟨[("other/pkg/2.0.0", 5)], []⟩ "a/b/1.0.0" 17
        (Except.ok (ε := Unit)
          (.V1 (.Finished true) (.Finished false) (.Finished true))) 42 =
        match Except.ok (ε := Unit)
            (RunResults.V1 (.Finished true) (.Finished false) (.Finished true)) with
        | .ok results =>
          ({ in_progress := [("other/pkg/2.0.0", 5)]
             dones := [⟨"a/b/1.0.0", 42, results⟩] }, none)
        | .error e => ({ in_progress := [("other/pkg/2.0.0", 5)], dones := [] }, some e) :=
  c7_worker_iteration_state ⟨[("other/pkg/2.0.0", 5)], []⟩ "a/b/1.0.0" 17
    (Except.ok (.V1 (.Finished true) (.Finished false) (.Finished true))) 42
    (by decide)

/-- Terminal key codes, restricted to what the dashboard distinguishes. -/
inductive KeyCode where
  | char (c : Char)
  | other
deriving DecidableEq

/-- Terminal events, as in the crossterm `Event` enum matched by
`ui_thread` (run-tests.rs lines 270-281). -/
inductive TermEvent where
  | key (code : KeyCode)
  | focusGained
  | focusLost
  | mouse
  | paste
  | resize
deriving DecidableEq

/-- What `ui_thread` does with one read event: `quit` models
`return Ok(())` on the 'q' key, `doExport` the synchronous export on the
'e' key, `ignore` every other arm. -/
inductive EventAction where
  | doExport
  | quit
  | ignore
deriving DecidableEq

/-- The event-handling match of `ui_thread`. -/
def handle_event : TermEvent → EventAction
  | .key (.char c) =>
    if c = 'e' then .doExport
    else if c = 'q' then .quit
    else .ignore
  | .key .other => .ignore
  | .focusGained => .ignore
  | .focusLost => .ignore
  | .mouse => .ignore
  | .paste => .ignore
  | .resize => .ignore

/-- The `ui_thread` render loop over a (finite prefix of the) event
stream, with the shutdown flag's value as seen by the loop: each
iteration first checks the flag (returning `Ok(())` when set), then
handles the next event; `some ()` means the loop returned without error,
`none` that the given events were exhausted with the loop still
running.  Export and ignored events continue the loop. -/
def ui_loop (stopping : Bool) (events : List TermEvent) : Option Unit :=
  if stopping then some ()
  else
    match events with
    | [] => none
    | e :: rest =>
      match handle_event e with
      | .quit => some ()
      | .doExport => ui_loop stopping rest
      | .ignore => ui_loop stopping rest

/-- The statement `*stopping = true` executed by `main` (run-tests.rs
line 207) right after the dashboard thread is joined, whatever the flag
held before. -/
def main_set_stopping (_flag_before : Bool) : Bool := true

/-- C8: when the running dashboard reads a 'q' key event it ends its
render loop returning without error, and the shared shutdown flag is
then set to true (by `main`, immediately after joining the dashboard
thread), regardless of the events that would have followed and of the
flag's prior value. -/
theorem c8_quit_key (rest : List TermEvent) (flag_before : Bool) :
    ui_loop false (TermEvent.key (KeyCode.char 'q') :: rest) = some ()
    ∧ main_set_stopping flag_before = true := by
  constructor
  · simp [ui_loop, handle_event]
  · rfl

/-- An `f64` value as relevant to the summary's arithmetic: a finite
value (held exactly — rounding of finite results affects no property
proved here), the two infinities, or NaN.  Signed zero is collapsed to 0,
which only matters for further division by a produced zero, a case the
summary never performs. -/
inductive F64 where
  | num (x : ℚ)
  | inf
  | negInf
  | nan
deriving DecidableEq

/-- IEEE-754 division on the modelled values (Rust `/` on `f64`): division
by zero gives an infinity (or NaN for 0/0), never a trap. -/
def f64_div : F64 → F64 → F64
  | .nan, _ => .nan
  | .num _, .nan => .nan
  | .inf, .nan => .nan
  | .negInf, .nan => .nan
  | .num a, .num b =>
    if b = 0 then (if a = 0 then .nan else if 0 < a then .inf else .negInf)
    else .num (a / b)
  | .num _, .inf => .num 0
  | .num _, .negInf => .num 0
  | .inf, .num b => if 0 ≤ b then .inf else .negInf
  | .negInf, .num b => if 0 ≤ b then .negInf else .inf
  | .inf, .inf => .nan
  | .inf, .negInf => .nan
  | .negInf, .inf => .nan
  | .negInf, .negInf => .nan

/-- IEEE-754 subtraction on the modelled values. -/
def f64_sub : F64 → F64 → F64
  | .nan, _ => .nan
  | .num _, .nan => .nan
  | .inf, .nan => .nan
  | .negInf, .nan => .nan
  | .num a, .num b => .num (a - b)
  | .num _, .inf => .negInf
  | .num _, .negInf => .inf
  | .inf, .num _ => .inf
  | .inf, .inf => .nan
  | .inf, .negInf => .inf
  | .negInf, .num _ => .negInf
  | .negInf, .inf => .negInf
  | .negInf, .negInf => .nan

/-- IEEE-754 multiplication on the modelled values: zero times an
infinity is NaN. -/
def f64_mul : F64 → F64 → F64
  | .nan, _ => .nan
  | .num _, .nan => .nan
  | .inf, .nan => .nan
  | .negInf, .nan => .nan
  | .num a, .num b => .num (a * b)
  | .num a, .inf => if a = 0 then .nan else if 0 < a then .inf else .negInf
  | .num a, .negInf => if a = 0 then .nan else if 0 < a then .negInf else .inf
  | .inf, .num b => if b = 0 then .nan else if 0 < b then .inf else .negInf
  | .negInf, .num b => if b = 0 then .nan else if 0 < b then .negInf else .inf
  | .inf, .inf => .inf
  | .inf, .negInf => .negInf
  | .negInf, .inf => .negInf
  | .negInf, .negInf => .inf

/-- `u32::MAX`. -/
def u32_max : Nat := 4294967295

/-- Rust's `as u32` cast from `f64` (saturating, never a panic): NaN maps
to 0, values are truncated toward zero and clamped to the `u32` range. -/
def f64_as_u32 : F64 → Nat
  | .nan => 0
  | .inf => u32_max
  | .negInf => 0
  | .num x =>
    if x ≤ 0 then 0
    else if (4294967296 : ℚ) ≤ x then u32_max
    else (Int.floor x).toNat

/-- The completion fraction computed by `render_summary` (run-tests.rs
lines 535-541) from the three counters: an explicit guard yields exactly
0.0 when the total is zero, otherwise `dones / total`. -/
def render_progress (dones_count in_progress_count pending_count : Nat) : F64 :=
  let total : Nat := dones_count + in_progress_count + pending_count
  if total = 0 then F64.num 0
  else F64.num ((dones_count : ℚ) / (total : ℚ))

/-- The ETA computed by `render_summary` (run-tests.rs line 543):
`(duration.as_secs_f64() * (1.0 / progress - 1.0)) as u32`. -/
def compute_eta (duration_secs : ℚ) (progress : F64) : Nat :=
  f64_as_u32 (f64_mul (F64.num duration_secs)
    (f64_sub (f64_div (F64.num 1) progress) (F64.num 1)))

/-- The saturating cast always lands in the `u32` range. -/
theorem f64_as_u32_le (v : F64) : f64_as_u32 v ≤ u32_max := by
  rcases v with x | _ | _ | _
  · simp only [f64_as_u32]
    split_ifs with hle hge
    · exact Nat.zero_le _
    · exact Nat.le_refl _
    · have hlt : x < (4294967296 : ℚ) := not_le.mp hge
      rcases le_or_lt (Int.floor x) 0 with hf | hf
      · calc (Int.floor x).toNat ≤ (0 : Int).toNat := by
              exact_mod_cast Int.toNat_le_toNat hf
          _ ≤ u32_max := by decide
      · have hx : Int.floor x < (4294967296 : ℤ) := by
          have h1 : (Int.floor x : ℚ) ≤ x := Int.floor_le x
          have h2 : (Int.floor x : ℚ) < (4294967296 : ℚ) := lt_of_le_of_lt h1 hlt
          exact_mod_cast h2
        have : (Int.floor x).toNat < 4294967296 := by
          rw [Int.toNat_lt hf.le]
          exact_mod_cast hx
        unfold u32_max
        omega
  · exact Nat.le_refl _
  · exact Nat.zero_le _
  · exact Nat.zero_le _

/-- C9: for every state of the three counters and every elapsed
duration, the ETA computation is total and yields a valid `u32`; in
particular with a zero completion fraction the division produces an
infinity (or, for a zero duration, NaN), which the saturating cast turns
into `u32::MAX` (resp. 0) — never a panic. -/
theorem c9_eta_total (dones_count in_progress_count pending_count : Nat)
    (duration_secs : ℚ) :
    compute_eta duration_secs
        (render_progress dones_count in_progress_count pending_count) ≤ u32_max
    ∧ compute_eta duration_secs (F64.num 0) =
        (if 0 < duration_secs then u32_max else 0) := by
  constructor
  · exact f64_as_u32_le _
  · unfold compute_eta
    have h1 : f64_div (F64.num 1) (F64.num 0) = F64.inf := by
      simp [f64_div]
    rw [h1]
    have h2 : f64_sub F64.inf (F64.num 1) = F64.inf := by
      simp [f64_sub]
    rw [h2]
    rcases lt_trichotomy duration_secs 0 with hd | hd | hd
    · have : ¬ (0 : ℚ) < duration_secs := not_lt.mpr hd.le
      simp [f64_mul, f64_as_u32, hd.ne, this, not_lt.mpr hd.le]
    · subst hd
      simp [f64_mul, f64_as_u32]
    · simp [f64_mul, f64_as_u32, hd, hd.ne']

/-- C10: the completion fraction is defined to be exactly 0.0 by the
explicit `total == 0` guard (never computed as 0/0), and for every
counter state it is a finite value in [0, 1] — a well-defined gauge
ratio, never NaN. -/
theorem c10_progress_guard (dones_count in_progress_count pending_count : Nat) :
    (dones_count + in_progress_count + pending_count = 0 →
      render_progress dones_count in_progress_count pending_count = F64.num 0)
    ∧ ∃ q : ℚ, render_progress dones_count in_progress_count pending_count = F64.num q
        ∧ 0 ≤ q ∧ q ≤ 1 := by
  constructor
  · intro h
    simp [render_progress, h]
  · by_cases h : dones_count + in_progress_count + pending_count = 0
    · exact ⟨0, by simp [render_progress, h], le_refl 0, by norm_num⟩
    · refine ⟨(dones_count : ℚ) /
        ((dones_count + in_progress_count + pending_count : Nat) : ℚ), ?_, ?_, ?_⟩
      · simp [render_progress, h]
      · positivity
      · rw [div_le_one (by exact_mod_cast Nat.pos_of_ne_zero h)]
        have hle : dones_count ≤ dones_count + in_progress_count + pending_count := by
          omega
        exact_mod_cast hle

/-- C10 witness: at startup, before any target is discovered, all three
counters are zero and the fraction is exactly 0.0 and lies in [0, 1]. -/
theorem c10_progress_guard_witness :
    render_progress 0 0 0 = F64.num 0
    ∧ ∃ q : ℚ, render_progress 0 0 0 = F64.num q ∧ 0 ≤ q ∧ q ≤ 1 :=
  ⟨(c10_progress_guard 0 0 0).1 rfl, (c10_progress_guard 0 0 0).2⟩

/-- One version directory of the corpus tree, abstracted by its name and
by whether the two qualifying entries (`tests/`, `elm.json`) exist. -/
structure VersionDir where
  name : String
  has_tests : Bool
  has_elm_json : Bool
deriving DecidableEq

/-- One package directory: its name and its version subdirectories. -/
structure PackageDir where
  name : String
  versions : List VersionDir
deriving DecidableEq

/-- One publisher (author) directory: its name and its package
subdirectories. -/
structure AuthorDir where
  name : String
  packages : List PackageDir
deriving DecidableEq

/-- An emitted execution target, identified by the (author, package,
version) directory names making up its path. -/
abbrev Target := String × String × String

/-- Comparison of sibling directory entries by name.  `read_dir` in the
source sorts the full entry paths; siblings share their parent-directory
prefix, so path order coincides with file-name order. -/
def name_le {α} (name : α → String) (a b : α) : Prop :=
  name a ≤ name b

instance {α} (name : α → String) : DecidableRel (name_le name) :=
  fun a b => inferInstanceAs (Decidable (name a ≤ name b))

instance {α} (name : α → String) : IsTotal α (name_le name) :=
  ⟨fun a b => le_total (name a) (name b)⟩

instance {α} (name : α → String) : IsTrans α (name_le name) :=
  ⟨fun _ _ _ h1 h2 => le_trans h1 h2⟩

/-- `read_dir` (run-tests.rs lines 678-690): list a directory's entries
and sort them lexicographically.  Rust's slice sort is stable; on the
sibling entries of a real directory names are distinct, so any
comparison sort computes the same list as this insertion sort. -/
def read_dir {α} (name : α → String) (entries : List α) : List α :=
  List.insertionSort (name_le name) entries

/-- The innermost loop of `walk_path` (run-tests.rs lines 230-239):
visit a package's version directories in sorted order and emit those
with both a `tests/` subdirectory and an `elm.json` file. -/
def walk_versions (author_name package_name : String)
    (versions : List VersionDir) : List Target :=
  (read_dir VersionDir.name versions).filterMap (fun version_root =>
    if version_root.has_tests && version_root.has_elm_json then
      some (author_name, package_name, version_root.name)
    else none)

/-- The middle loop of `walk_path`: visit an author's packages in sorted
order. -/
def walk_packages (author_name : String) (packages : List PackageDir) :
    List Target :=
  (read_dir PackageDir.name packages).flatMap (fun package_root =>
    walk_versions author_name package_root.name package_root.versions)

/-- `walk_path` (run-tests.rs lines 226-243) with the corpus tree and the
shutdown flag as inputs, and the emitted target sequence as output.  The
source checks the flag before each emission and returns early; with the
flag's value fixed for the walk (the claim's premise is that shutdown is
never requested) that is: emit nothing when set, the full walk when
clear. -/
def walk_path (stopping : Bool) (repos : List AuthorDir) : List Target :=
  if stopping then []
  else
    (read_dir AuthorDir.name repos).flatMap (fun author_root =>
      walk_packages author_root.name author_root.packages)

/-- A target qualifies iff the corpus holds, at its three-level path, a
version directory with both a manifest and a tests directory. -/
def qualifying_target (repos : List AuthorDir) (t : Target) : Prop :=
  ∃ a ∈ repos, ∃ p ∈ a.packages, ∃ v ∈ p.versions,
    v.has_tests = true ∧ v.has_elm_json = true ∧ t = (a.name, p.name, v.name)

/-- Strict lexicographic order on emitted targets: by author name, then
package name, then version name. -/
def target_lt (t1 t2 : Target) : Prop :=
  t1.1 < t2.1 ∨
    (t1.1 = t2.1 ∧ (t1.2.1 < t2.2.1 ∨ (t1.2.1 = t2.2.1 ∧ t1.2.2 < t2.2.2)))

theorem target_lt_ne {t1 t2 : Target} (h : target_lt t1 t2) : t1 ≠ t2 := by
  rintro rfl
  rcases h with h | ⟨_, h | ⟨_, h⟩⟩ <;> exact lt_irrefl _ h

/-- Sorting distinct-named entries yields a strictly name-increasing
list. -/
theorem read_dir_pairwise_lt {α} (name : α → String) (l : List α)
    (h : (l.map name).Nodup) :
    (read_dir name l).Pairwise (fun a b => name a < name b) := by
  have hsorted : (read_dir name l).Pairwise (name_le name) :=
    List.sorted_insertionSort (name_le name) l
  have hperm : List.Perm (read_dir name l) l :=
    List.perm_insertionSort (name_le name) l
  have hnd : ((read_dir name l).map name).Nodup :=
    ((hperm.map name).symm).nodup h
  have hne : (read_dir name l).Pairwise (fun a b => name a ≠ name b) :=
    List.pairwise_map.mp hnd
  exact (hsorted.and hne).imp (fun hab => lt_of_le_of_ne hab.1 hab.2)

theorem mem_walk_versions {author_name package_name : String}
    {versions : List VersionDir} {t : Target} :
    t ∈ walk_versions author_name package_name versions ↔
      ∃ v ∈ versions, v.has_tests = true ∧ v.has_elm_json = true ∧
        t = (author_name, package_name, v.name) := by
  simp only [walk_versions, read_dir, List.mem_filterMap, List.mem_insertionSort]
  constructor
  · rintro ⟨v, hv, heq⟩
    by_cases hb : (v.has_tests && v.has_elm_json) = true
    · rw [if_pos hb, Option.some.injEq] at heq
      rw [Bool.and_eq_true] at hb
      exact ⟨v, hv, hb.1, hb.2, heq.symm⟩
    · rw [if_neg hb] at heq
      cases heq
  · rintro ⟨v, hv, ht, hj, rfl⟩
    refine ⟨v, hv, ?_⟩
    rw [if_pos (by rw [Bool.and_eq_true]; exact ⟨ht, hj⟩)]

theorem walk_versions_components {author_name package_name : String}
    {versions : List VersionDir} {t : Target}
    (h : t ∈ walk_versions author_name package_name versions) :
    t.1 = author_name ∧ t.2.1 = package_name := by
  rcases mem_walk_versions.mp h with ⟨v, _, _, _, rfl⟩
  exact ⟨rfl, rfl⟩

theorem mem_walk_packages {author_name : String} {packages : List PackageDir}
    {t : Target} :
    t ∈ walk_packages author_name packages ↔
      ∃ p ∈ packages, t ∈ walk_versions author_name p.name p.versions := by
  simp only [walk_packages, read_dir, List.mem_flatMap, List.mem_insertionSort]

theorem walk_packages_components {author_name : String}
    {packages : List PackageDir} {t : Target}
    (h : t ∈ walk_packages author_name packages) : t.1 = author_name := by
  rcases mem_walk_packages.mp h with ⟨p, _, hm⟩
  exact (walk_versions_components hm).1

theorem walk_versions_pairwise (author_name package_name : String)
    (versions : List VersionDir)
    (h : (versions.map VersionDir.name).Nodup) :
    (walk_versions author_name package_name versions).Pairwise target_lt := by
  unfold walk_versions
  refine List.Pairwise.filterMap _ ?_ (read_dir_pairwise_lt VersionDir.name versions h)
  intro v w hvw x hx y hy
  split_ifs at hx hy with hbv hbw
  · rw [Option.mem_def, Option.some.injEq] at hx hy
    subst hx
    subst hy
    exact Or.inr ⟨rfl, Or.inr ⟨rfl, hvw⟩⟩
  all_goals cases hx <;> cases hy

theorem walk_packages_pairwise (author_name : String)
    (packages : List PackageDir)
    (hn : (packages.map PackageDir.name).Nodup)
    (hv : ∀ p ∈ packages, (p.versions.map VersionDir.name).Nodup) :
    (walk_packages author_name packages).Pairwise target_lt := by
  unfold walk_packages
  rw [List.pairwise_flatMap]
  constructor
  · intro p hp
    exact walk_versions_pairwise author_name p.name p.versions
      (hv p ((List.mem_insertionSort (name_le PackageDir.name)).mp hp))
  · refine (read_dir_pairwise_lt PackageDir.name packages hn).imp ?_
    intro p1 p2 h12 x hx y hy
    have hx1 := walk_versions_components hx
    have hy1 := walk_versions_components hy
    refine Or.inr ⟨hx1.1.trans hy1.1.symm, Or.inl ?_⟩
    rw [hx1.2, hy1.2]
    exact h12

/-- C6: with shutdown never requested, the walker emits a target iff its
version directory exists in the corpus with both a manifest and a tests
directory; the emitted sequence is strictly increasing in the
lexicographic (author, package, version) name order induced by sorting
the entries at each of the three levels, and hence emits each qualifying
directory exactly once (no duplicates).  The distinct-name hypotheses
hold for any real directory tree, whose sibling entries have distinct
names. -/
theorem c6_walker_emits_sorted_qualifying (repos : List AuthorDir)
    (h_authors : (repos.map AuthorDir.name).Nodup)
    (h_packages : ∀ a ∈ repos, (a.packages.map PackageDir.name).Nodup)
    (h_versions : ∀ a ∈ repos, ∀ p ∈ a.packages,
      (p.versions.map VersionDir.name).Nodup) :
    (∀ t, t ∈ walk_path false repos ↔ qualifying_target repos t)
    ∧ (walk_path false repos).Pairwise target_lt
    ∧ (walk_path false repos).Nodup := by
  have hpw : (walk_path false repos).Pairwise target_lt := by
    unfold walk_path
    rw [if_neg (by simp)]
    rw [List.pairwise_flatMap]
    constructor
    · intro a ha
      have ha' := (List.mem_insertionSort (name_le AuthorDir.name)).mp ha
      exact walk_packages_pairwise a.name a.packages (h_packages a ha')
        (h_versions a ha')
    · refine (read_dir_pairwise_lt AuthorDir.name repos h_authors).imp ?_
      intro a1 a2 h12 x hx y hy
      have hx1 := walk_packages_components hx
      have hy1 := walk_packages_components hy
      rw [target_lt, hx1, hy1]
      exact Or.inl h12
  refine ⟨?_, hpw, hpw.imp target_lt_ne⟩
  intro t
  unfold walk_path
  rw [if_neg (by simp)]
  simp only [read_dir, List.mem_flatMap, List.mem_insertionSort]
  constructor
  · rintro ⟨a, ha, hm⟩
    rcases mem_walk_packages.mp hm with ⟨p, hp, hmv⟩
    rcases mem_walk_versions.mp hmv with ⟨v, hv, hvt, hvj, rfl⟩
    exact ⟨a, ha, p, hp, v, hv, hvt, hvj, rfl⟩
  · rintro ⟨a, ha, p, hp, v, hv, hvt, hvj, rfl⟩
    refine ⟨a, ha, mem_walk_packages.mpr ⟨p, hp, ?_⟩⟩
    exact mem_walk_versions.mpr ⟨v, hv, hvt, hvj, rfl⟩

/-- A concrete two-author corpus: one qualifying version, one version
missing its tests directory, one author with no packages. -/
def demo_repos : List AuthorDir :=
  [ { name := "bob", packages := [] }
  , { name := "alice"
      packages :=
        [ { name := "pkg"
            versions :=
              [ { name := "2.0.0", has_tests := false, has_elm_json := true }
              , { name := "1.0.0", has_tests := true, has_elm_json := true } ] } ] } ]

/-- C6 witness: the walker theorem instantiated on the concrete corpus,
with the distinct-name hypotheses discharged by computation. -/
theorem c6_walker_emits_sorted_qualifying_witness :
    (∀ t, t ∈ walk_path false demo_repos ↔ qualifying_target demo_repos t)
    ∧ (walk_path false demo_repos).Pairwise target_lt
    ∧ (walk_path false demo_repos).Nodup :=
  c6_walker_emits_sorted_qualifying demo_repos (by decide) (by decide) (by decide)
